import Mathlib

set_option maxHeartbeats 1000000

/-!
Shallow embedding of `src/App.jsx` (Precur), a browser-resident time-logging
tool: a form producing `{hours, minutes, createdAt}` records, an IndexedDB
object store keyed by an auto-incrementing `id`, a controller that
adds/updates/deletes records and reloads its cache after each mutation, and
two aggregation views bucketing total minutes by month and by year.

JS numbers reaching arithmetic here are integers produced by `parseInt` or
sums/products of such; they are modelled as `Option Int`, with `none`
standing for JS `NaN` (the result of a failed parse).  Float arithmetic is
exact on this range and is modelled as exact integer arithmetic.
-/

/-- JS number carried by this app: an exact integer, or `none` for `NaN`. -/
abbrev JSNum := Option Int

/-- JS `+` on such numbers: `NaN` propagates. -/
def jsAdd : JSNum → JSNum → JSNum
  | some a, some b => some (a + b)
  | _, _ => none

/-- JS `*` on such numbers: `NaN` propagates. -/
def jsMul : JSNum → JSNum → JSNum
  | some a, some b => some (a * b)
  | _, _ => none

/-- JS truthiness of a number: `0` and `NaN` are falsy. -/
def jsTruthy : JSNum → Bool
  | none => false
  | some a => decide (a ≠ 0)

/-- JS `Date` as observed by this app: `getTime` (epoch milliseconds),
`getFullYear`, and `getMonth` (0-indexed).  The app only reads these
projections, so the calendar arithmetic linking them stays abstract; years
reachable by `new Date()` are nonnegative and below 2^32 - 1, so a year used
as a JS property key is an array-index key. -/
structure JSDate where
  time : Nat
  year : Nat
  month0 : Nat
deriving DecidableEq, Repr

/-- One record of the `entries` object store: `{ id, hours, minutes,
createdAt }`.  `id` is `none` on a freshly built form entry and `some k`
once the store has assigned key `k` (store keyPath `id`, autoIncrement). -/
structure Entry where
  id : Option Int
  hours : JSNum
  minutes : JSNum
  createdAt : JSDate
deriving DecidableEq, Repr

/-- White space skipped by `parseInt` before the number (the ASCII cases). -/
def isStrWhiteSpace (c : Char) : Bool :=
  c.toNat = 32 || c.toNat = 9 || c.toNat = 10 || c.toNat = 13 ||
    c.toNat = 11 || c.toNat = 12

/-- Value of a run of decimal digits, most significant first. -/
def digitsToInt (ds : List Char) : Int :=
  ds.foldl (fun a c => a * 10 + ((c.toNat - 48 : Nat) : Int)) 0

/-- JS `parseInt(s, 10)`: skip leading white space, an optional sign
(code points 45 `-` / 43 `+`), then the longest run of decimal digits;
`NaN` (here `none`) when that run is empty. -/
def jsParseInt (s : String) : Option Int :=
  let cs := s.toList.dropWhile isStrWhiteSpace
  let neg : Bool := match cs with
    | c :: _ => c.toNat = 45
    | [] => false
  let cs2 := match cs with
    | c :: rest => if c.toNat = 45 || c.toNat = 43 then rest else cs
    | [] => cs
  let ds := cs2.takeWhile (fun c => c.isDigit)
  if ds.isEmpty then none
  else if neg then some (-(digitsToInt ds)) else some (digitsToInt ds)

namespace TimeForm

/-- Field state of the form: the two text inputs. -/
structure FormState where
  hours : String
  minutes : String
deriving DecidableEq, Repr

/-- App.jsx `TimeForm.handleSubmit`: builds
`{ hours: parseInt(hours, 10), minutes: parseInt(minutes, 10), createdAt: now }`
— no `id` field — hands it to the submit callback, and clears both inputs.
Returned here as the submitted entry paired with the new field state. -/
def handleSubmit (st : FormState) (now : JSDate) : Entry × FormState :=
  ({ id := none
     hours := jsParseInt st.hours
     minutes := jsParseInt st.minutes
     createdAt := now },
   { hours := "", minutes := "" })

end TimeForm

/-- IndexedDB object store `entries` (keyPath `id`, autoIncrement): the key
generator's next value plus the records, kept ascending by key as `getAll`
returns them.  Modelled from the spec: the Persistence Adapter contract of
§4.1/§6 — the `idb` library and IndexedDB are external collaborators, not
code of this repository. -/
structure Store where
  next : Int
  recs : List Entry
deriving DecidableEq, Repr

/-- Empty store as first created: IndexedDB key generators start at 1. -/
def Store.empty : Store := ⟨1, []⟩

/-- Ordered insertion keeping records ascending by key. -/
def insertByKey (e : Entry) : List Entry → List Entry
  | [] => [e]
  | r :: t => if e.id.getD 0 < r.id.getD 0 then e :: r :: t else r :: insertByKey e t

/-- App.jsx `addEntry`: IndexedDB `add` on the autoIncrement store.  The form
never supplies an `id` (see `TimeForm.handleSubmit`), so the key generator
assigns the next key and advances. -/
def addEntry (s : Store) (e : Entry) : Store :=
  ⟨s.next + 1, insertByKey { e with id := some s.next } s.recs⟩

/-- App.jsx `getEntries`: IndexedDB `getAll`, every record, in key order. -/
def getEntries (s : Store) : List Entry := s.recs

/-- App.jsx `deleteEntry`: IndexedDB `delete`; removes the record under that
key if there is one, and succeeds as a no-op otherwise. -/
def deleteEntry (s : Store) (id : Int) : Store :=
  ⟨s.next, s.recs.filter (fun r => decide (r.id ≠ some id))⟩

/-- App.jsx `updateEntry`: IndexedDB `put`, an upsert at key `e.id`: replace
the record under that key when present, else insert one (an explicit numeric
key at or above the generator bumps the generator past it).  A `put` without
a key behaves like `add`.  The controller only calls this with an entry
stamped with the edited entry's id. -/
def updateEntry (s : Store) (e : Entry) : Store :=
  match e.id with
  | some k =>
      if s.recs.any (fun r => decide (r.id = some k)) then
        ⟨s.next, s.recs.map (fun r => if r.id = some k then e else r)⟩
      else
        ⟨max s.next (k + 1), insertByKey e s.recs⟩
  | none => ⟨s.next + 1, insertByKey { e with id := some s.next } s.recs⟩

/-- App component state: the store it talks to, the cached entry collection,
the entry being edited (nullable), and the last-observed month and year. -/
structure AppState where
  store : Store
  entries : List Entry
  editingEntry : Option Entry
  currentMonth : Nat
  currentYear : Nat
deriving DecidableEq, Repr

/-- App.jsx `handleAddEntry`: when an edit is in progress, stamp the incoming
entry with the edited entry's id, `put` it and clear the marker; otherwise
`add` it; in both cases reload the collection from the store
(`loadEntries`). -/
def handleAddEntry (st : AppState) (entry : Entry) : AppState :=
  match st.editingEntry with
  | some ed =>
      let s := updateEntry st.store { entry with id := ed.id }
      { st with store := s, editingEntry := none, entries := getEntries s }
  | none =>
      let s := addEntry st.store entry
      { st with store := s, entries := getEntries s }

/-- App.jsx `handleEditEntry`: marks an entry as being edited. -/
def handleEditEntry (st : AppState) (e : Entry) : AppState :=
  { st with editingEntry := some e }

/-- App.jsx `handleDeleteEntry`: delete by id, then reload the collection.
The edit marker is not touched. -/
def handleDeleteEntry (st : AppState) (id : Int) : AppState :=
  let s := deleteEntry st.store id
  { st with store := s, entries := getEntries s }

/-- App.jsx `useEffect` rollover watch: compare wall-clock month/year with
the last-observed values and update them on change; `resetMonthlyCount` and
`resetAnnualCount` only log, so no further state is involved. -/
def checkRollover (st : AppState) (now : JSDate) : AppState :=
  let st1 := if now.month0 ≠ st.currentMonth then { st with currentMonth := now.month0 } else st
  if now.year ≠ st1.currentYear then { st1 with currentYear := now.year } else st1

/-- Month bucket key, the template string
`` `${date.getFullYear()}-${date.getMonth() + 1}` ``. -/
def monthKey (d : JSDate) : String :=
  toString d.year ++ "-" ++ toString (d.month0 + 1)

/-- The summand `entry.hours * 60 + entry.minutes`. -/
def entryMinutes (e : Entry) : JSNum :=
  jsAdd (jsMul e.hours (some 60)) e.minutes

/-- One accumulation step
`if (!totals[k]) { totals[k] = 0; } totals[k] += v;` on a JS object rendered
as an insertion-ordered association list: a falsy stored value (`0` or `NaN`)
is reset to `0` before the addition, and an absent key is created at the end
of the insertion order as `0` and then added to. -/
def bump {κ : Type} [DecidableEq κ] : List (κ × JSNum) → κ → JSNum → List (κ × JSNum)
  | [], k, v => [(k, jsAdd (some 0) v)]
  | (k', t) :: rest, k, v =>
      if k' = k then (k', jsAdd (if jsTruthy t then t else some 0) v) :: rest
      else (k', t) :: bump rest k v

/-- The `totalsByMonth` object built by `getTotalTimeByMonth`, in property
insertion order. -/
def totalsByMonth (entries : List Entry) : List (String × JSNum) :=
  entries.foldl (fun acc e => bump acc (monthKey e.createdAt) (entryMinutes e)) []

/-- The `totalsByYear` object built by `getTotalTimeByYear`, in property
insertion order. -/
def totalsByYear (entries : List Entry) : List (Nat × JSNum) :=
  entries.foldl (fun acc e => bump acc e.createdAt.year (entryMinutes e)) []

/-- Ordered insertion of a keyed pair, ascending by key. -/
def insPairAsc (p : Nat × JSNum) : List (Nat × JSNum) → List (Nat × JSNum)
  | [] => [p]
  | q :: t => if p.1 < q.1 then p :: q :: t else q :: insPairAsc p t

/-- Ascending-by-key reordering of an association list. -/
def sortPairsAsc : List (Nat × JSNum) → List (Nat × JSNum)
  | [] => []
  | p :: t => insPairAsc p (sortPairsAsc t)

/-- What `Object.keys(totalsByYear)` iterates: per ECMAScript property
enumeration, integer-like keys (array indices) come in ascending numeric
order, and every year key is integer-like, so the view is the association
list reordered ascending by key. -/
def totalsByYearView (entries : List Entry) : List (Nat × JSNum) :=
  sortPairsAsc (totalsByYear entries)

/-- What `Object.keys(totalsByMonth)` iterates: every month key `"y-m"`
contains a dash, hence is a plain string property listed in insertion
order, so the view is the association list itself. -/
def totalsByMonthView (entries : List Entry) : List (String × JSNum) :=
  totalsByMonth entries

/-- Display split of one bucket total:
`totalHours = Math.floor(totalMinutes / 60)` is floored division
(`Int.fdiv`), `minutesLeft = totalMinutes % 60` is JS `%`, the remainder
with the dividend's sign (`Int.tmod`); `NaN` propagates through both. -/
def renderTotal (t : JSNum) : JSNum × JSNum :=
  (t.map (fun x => Int.fdiv x 60), t.map (fun x => Int.tmod x 60))

/-- App.jsx `getTotalTimeByMonth`: the displayed month rows, each
`monthKey: totalHours:minutesLeft`. -/
def getTotalTimeByMonth (entries : List Entry) : List (String × (JSNum × JSNum)) :=
  (totalsByMonthView entries).map (fun kv => (kv.1, renderTotal kv.2))

/-- App.jsx `getTotalTimeByYear`: the displayed year rows. -/
def getTotalTimeByYear (entries : List Entry) : List (Nat × (JSNum × JSNum)) :=
  (totalsByYearView entries).map (fun kv => (kv.1, renderTotal kv.2))

/-! Spec-side definitions: the shapes the claims describe, to be compared
with the embedded code above. -/

/-- Keys of a list in first-seen order. -/
def firstKeys {κ : Type} [DecidableEq κ] : List κ → List κ
  | [] => []
  | k :: t => k :: (firstKeys t).filter (fun x => decide (x ≠ k))

/-- Entries of `es` landing in bucket `k` of the keying function. -/
def bucketOf {κ : Type} [DecidableEq κ] (key : Entry → κ) (k : κ) (es : List Entry) : List Entry :=
  es.filter (fun e => decide (key e = k))

/-- Total a bucket accumulates: `0`, then `hours * 60 + minutes` of each of
its entries in turn, with JS addition. -/
def sumKey {κ : Type} [DecidableEq κ] (key : Entry → κ) (k : κ) (es : List Entry) : JSNum :=
  (bucketOf key k es).foldl (fun a e => jsAdd a (entryMinutes e)) (some 0)

/-- Integer sum of `hours * 60 + minutes` over a bucket: the spec's reading
of a bucket total. -/
def bucketSum {κ : Type} [DecidableEq κ] (key : Entry → κ) (k : κ) (es : List Entry) : Int :=
  ((bucketOf key k es).map (fun e => e.hours.getD 0 * 60 + e.minutes.getD 0)).sum

/-- Month keying of an entry. -/
def keyMonth (e : Entry) : String := monthKey e.createdAt

/-- Year keying of an entry. -/
def keyYear (e : Entry) : Nat := e.createdAt.year

/-- Entries whose hours and minutes are actual integers, no `NaN`: the
spec's data model (`hours`, `minutes` are user-supplied integers). -/
abbrev intEntries (es : List Entry) : Prop :=
  ∀ e ∈ es, e.hours ≠ none ∧ e.minutes ≠ none

/-- Ascending insertion into a list of years. -/
def insNatAsc (k : Nat) : List Nat → List Nat
  | [] => [k]
  | x :: t => if k < x then k :: x :: t else x :: insNatAsc k t

/-- Ascending ordering of a list of years. -/
def sortNatAsc : List Nat → List Nat
  | [] => []
  | k :: t => insNatAsc k (sortNatAsc t)

/-- Add-or-update as claim C2 words it: choose the new store by replacing
under the edited entry's id (edit in progress) or creating (otherwise),
clear the marker exactly on the update path, and in both cases reload the
full collection from storage afterward. -/
def handleAddEntrySpec (st : AppState) (entry : Entry) : AppState :=
  let newStore :=
    match st.editingEntry with
    | some ed => updateEntry st.store { entry with id := ed.id }
    | none => addEntry st.store entry
  let newEditing : Option Entry :=
    match st.editingEntry with
    | some _ => none
    | none => st.editingEntry
  { st with store := newStore, editingEntry := newEditing, entries := getEntries newStore }

/-! Concrete fixtures used by counterexamples and witnesses. -/

/-- A date in March 2024. -/
def dMar2024a : JSDate := ⟨1000, 2024, 2⟩

/-- A later date in March 2024. -/
def dMar2024b : JSDate := ⟨2000, 2024, 2⟩

/-- A date in January 2025. -/
def dJan2025 : JSDate := ⟨3000, 2025, 0⟩

/-- Entry of 1h45, March 2024. -/
def entry145 : Entry := ⟨none, some 1, some 45, dMar2024a⟩

/-- Entry of 0h30, March 2024. -/
def entry030 : Entry := ⟨none, some 0, some 30, dMar2024b⟩

/-- Entry of 1h75 (minutes out of range, stored as-is), March 2024. -/
def entry175 : Entry := ⟨none, some 1, some 75, dMar2024a⟩

/-- Entry of 1h00, January 2025. -/
def entryY25 : Entry := ⟨none, some 1, some 0, dJan2025⟩

/-- A stored record under key 1, created in March 2024. -/
def recC1 : Entry := ⟨some 1, some 2, some 0, dMar2024a⟩

/-- Controller state editing `recC1`, with `recC1` in the store. -/
def stC1 : AppState :=
  ⟨⟨2, [recC1]⟩, [recC1], some recC1, 2, 2024⟩

/-- The entry the form submits for the edit of `recC1`, at the later date. -/
def feC1 : Entry := (TimeForm.handleSubmit ⟨"3", "5"⟩ dJan2025).1

/-- The record stored under key 1 after that edit. -/
def rC1 : Entry := ⟨some 1, some 3, some 5, dJan2025⟩

/-! Basic lemmas on the JS arithmetic and the accumulation step. -/

theorem jsAdd_ne_none {a b : JSNum} (ha : a ≠ none) (hb : b ≠ none) : jsAdd a b ≠ none := by
  cases a <;> cases b <;> simp_all [jsAdd]

theorem entryMinutes_ne_none {e : Entry} (hh : e.hours ≠ none) (hm : e.minutes ≠ none) :
    entryMinutes e ≠ none := by
  rcases e with ⟨i, h, m, d⟩
  cases h <;> cases m <;> simp_all [entryMinutes, jsMul, jsAdd]

theorem entryMinutes_eq {e : Entry} (hh : e.hours ≠ none) (hm : e.minutes ≠ none) :
    entryMinutes e = some (e.hours.getD 0 * 60 + e.minutes.getD 0) := by
  rcases e with ⟨i, h, m, d⟩
  cases h <;> cases m <;> simp_all [entryMinutes, jsMul, jsAdd]

theorem jsAdd_right_comm (a x y : JSNum) : jsAdd (jsAdd a x) y = jsAdd (jsAdd a y) x := by
  cases a <;> cases x <;> cases y <;> simp [jsAdd] <;> omega

theorem foldl_jsAdd_perm {xs ys : List JSNum} (p : xs.Perm ys) :
    ∀ a, xs.foldl jsAdd a = ys.foldl jsAdd a := by
  induction p with
  | nil => intro a; rfl
  | cons x _ ih => intro a; simpa using ih (jsAdd a x)
  | swap x y l => intro a; simp only [List.foldl_cons]; rw [jsAdd_right_comm]
  | trans _ _ ih1 ih2 => intro a; rw [ih1, ih2]

theorem foldl_jsAdd_some (xs : List JSNum) (h : ∀ x ∈ xs, x ≠ none) :
    ∀ a : Int, xs.foldl jsAdd (some a) = some (a + (xs.map (fun x => x.getD 0)).sum) := by
  induction xs with
  | nil => intro a; simp
  | cons x t ih =>
      intro a
      cases x with
      | none => exact absurd rfl (h none (by simp))
      | some x0 =>
          have ht : ∀ y ∈ t, y ≠ none := fun y hy => h y (by simp [hy])
          simp only [List.foldl_cons, jsAdd]
          rw [ih ht]
          simp [add_assoc]

theorem jsTruthy_reset {t : JSNum} (h : t ≠ none) (v : JSNum) :
    jsAdd (if jsTruthy t then t else some 0) v = jsAdd t v := by
  cases t with
  | none => exact absurd rfl h
  | some x => by_cases hx : x = 0 <;> simp [jsTruthy, hx]

/-! Lemmas on `firstKeys`. -/

theorem mem_firstKeys {κ : Type} [DecidableEq κ] (L : List κ) (k : κ) :
    k ∈ firstKeys L ↔ k ∈ L := by
  induction L with
  | nil => simp [firstKeys]
  | cons x t ih =>
      simp only [firstKeys, List.mem_cons, List.mem_filter, decide_eq_true_eq]
      constructor
      · rintro (rfl | ⟨hk, _⟩)
        · exact Or.inl rfl
        · exact Or.inr (ih.mp hk)
      · rintro (rfl | hk)
        · exact Or.inl rfl
        · by_cases hx : k = x
          · exact Or.inl hx
          · exact Or.inr ⟨ih.mpr hk, hx⟩

theorem nodup_firstKeys {κ : Type} [DecidableEq κ] (L : List κ) : (firstKeys L).Nodup := by
  induction L with
  | nil => simp [firstKeys]
  | cons x t ih =>
      simp only [firstKeys]
      refine List.Nodup.cons ?_ (ih.filter _)
      simp [List.mem_filter]

/-! Lemmas on the accumulation step `bump`. -/

theorem keys_bump {κ : Type} [DecidableEq κ] (l : List (κ × JSNum)) (k : κ) (v : JSNum) :
    (bump l k v).map Prod.fst =
      if k ∈ l.map Prod.fst then l.map Prod.fst else l.map Prod.fst ++ [k] := by
  induction l with
  | nil => simp [bump]
  | cons q t ih =>
      obtain ⟨k', tv⟩ := q
      by_cases hk : k' = k
      · subst hk
        simp [bump]
      · have hkk : ¬ k = k' := fun e => hk e.symm
        by_cases hm : k ∈ t.map Prod.fst <;>
          simp [bump, hk, ih, hm, hkk]

theorem keys_bump_nodup {κ : Type} [DecidableEq κ] {l : List (κ × JSNum)} (k : κ) (v : JSNum)
    (h : (l.map Prod.fst).Nodup) : ((bump l k v).map Prod.fst).Nodup := by
  rw [keys_bump]
  split
  · exact h
  · next hk => simp [List.nodup_append, h, hk]

theorem bump_vals {κ : Type} [DecidableEq κ] {l : List (κ × JSNum)} {k : κ} {v : JSNum}
    (hl : ∀ p ∈ l, p.2 ≠ none) (hv : v ≠ none) :
    ∀ p ∈ bump l k v, p.2 ≠ none := by
  induction l with
  | nil =>
      intro p hp
      simp only [bump, List.mem_cons, List.not_mem_nil, or_false] at hp
      subst hp
      exact jsAdd_ne_none (by simp) hv
  | cons q t ih =>
      obtain ⟨k', tv⟩ := q
      intro p hp
      by_cases hk : k' = k
      · subst hk
        simp only [bump, if_pos rfl] at hp
        cases hp with
        | head =>
            have htv : tv ≠ none := hl (k', tv) (by simp)
            show jsAdd (if jsTruthy tv then tv else some 0) v ≠ none
            rw [jsTruthy_reset htv]
            exact jsAdd_ne_none htv hv
        | tail _ hmem => exact hl _ (List.mem_cons_of_mem _ hmem)
      · simp only [bump, if_neg hk] at hp
        cases hp with
        | head => exact hl (k', tv) (by simp)
        | tail _ hmem => exact ih (fun q hq => hl q (by simp [hq])) p hmem

theorem bump_of_not_mem {κ : Type} [DecidableEq κ] {l : List (κ × JSNum)} {k : κ} (v : JSNum)
    (h : ¬ k ∈ l.map Prod.fst) :
    bump l k v = l ++ [(k, jsAdd (some 0) v)] := by
  induction l with
  | nil => rfl
  | cons q t ih =>
      obtain ⟨k', tv⟩ := q
      simp only [List.map_cons, List.mem_cons] at h
      push_neg at h
      have hk : ¬ k' = k := fun e => h.1 e.symm
      simp [bump, hk, ih h.2]

theorem map_update_not_mem {κ : Type} [DecidableEq κ] {t : List (κ × JSNum)} {k : κ} (v : JSNum)
    (h : ¬ k ∈ t.map Prod.fst) :
    t.map (fun p => if p.1 = k then (p.1, jsAdd p.2 v) else p) = t := by
  induction t with
  | nil => rfl
  | cons q r ih =>
      simp only [List.map_cons, List.mem_cons] at h
      push_neg at h
      have hk : ¬ q.1 = k := fun e => h.1 e.symm
      simp [hk, ih h.2]

theorem bump_of_mem {κ : Type} [DecidableEq κ] {l : List (κ × JSNum)} {k : κ} (v : JSNum)
    (hmem : k ∈ l.map Prod.fst) (hnd : (l.map Prod.fst).Nodup)
    (hvals : ∀ p ∈ l, p.2 ≠ none) :
    bump l k v = l.map (fun p => if p.1 = k then (p.1, jsAdd p.2 v) else p) := by
  induction l with
  | nil => simp at hmem
  | cons q t ih =>
      obtain ⟨k', tv⟩ := q
      simp only [List.map_cons, List.nodup_cons] at hnd
      by_cases hk : k' = k
      · subst hk
        have htv : tv ≠ none := hvals (k', tv) (by simp)
        simp [bump, jsTruthy_reset htv, map_update_not_mem v hnd.1]
      · have hmem' : k ∈ t.map Prod.fst := by
          simp only [List.map_cons, List.mem_cons] at hmem
          rcases hmem with e | hmem
          · exact absurd e.symm hk
          · exact hmem
        simp only [bump, if_neg hk, List.map_cons, if_neg hk]
        rw [ih hmem' hnd.2 (fun p hp => hvals p (by simp [hp]))]

/-! Filter bookkeeping used when one more key is absorbed. -/

theorem firstKeys_cons {κ : Type} [DecidableEq κ] (k : κ) (t : List κ) :
    firstKeys (k :: t) = k :: (firstKeys t).filter (fun x => decide (x ≠ k)) := rfl

theorem filter_ne_of_mem {κ : Type} [DecidableEq κ] (L K : List κ) (ke : κ) (h : ke ∈ K) :
    (L.filter (fun a => decide (a ≠ ke))).filter (fun a => decide (¬ a ∈ K))
      = L.filter (fun a => decide (¬ a ∈ K)) := by
  rw [List.filter_filter]
  apply List.filter_congr
  intro a _
  by_cases ha : a ∈ K
  · simp [ha]
  · have : a ≠ ke := fun e => ha (e ▸ h)
    simp [ha, this]

theorem filter_not_mem_append {κ : Type} [DecidableEq κ] (L K : List κ) (ke : κ) :
    L.filter (fun a => decide (¬ a ∈ K ++ [ke]))
      = (L.filter (fun a => decide (a ≠ ke))).filter (fun a => decide (¬ a ∈ K)) := by
  rw [List.filter_filter]
  apply List.filter_congr
  intro a _
  by_cases h1 : a = ke
  · simp [h1]
  · by_cases h2 : a ∈ K <;> simp [h1, h2]

theorem bucketOf_cons_self {κ : Type} [DecidableEq κ] (key : Entry → κ) (e : Entry) (es : List Entry) :
    bucketOf key (key e) (e :: es) = e :: bucketOf key (key e) es := by
  simp [bucketOf]

theorem bucketOf_cons_ne {κ : Type} [DecidableEq κ] (key : Entry → κ) {k : κ} (e : Entry)
    (es : List Entry) (h : ¬ key e = k) :
    bucketOf key k (e :: es) = bucketOf key k es := by
  simp [bucketOf, h]

theorem sumKey_cons_ne {κ : Type} [DecidableEq κ] (key : Entry → κ) {k : κ} (e : Entry)
    (es : List Entry) (h : ¬ key e = k) :
    sumKey key k (e :: es) = sumKey key k es := by
  simp [sumKey, bucketOf_cons_ne key e es h]

/-! The keys produced by the accumulation: first-seen order, regardless of
the values involved. -/

theorem keys_foldl_bump {κ : Type} [DecidableEq κ] (key : Entry → κ) :
    ∀ (es : List Entry) (acc : List (κ × JSNum)),
      ((es.foldl (fun a e => bump a (key e) (entryMinutes e)) acc).map Prod.fst)
        = acc.map Prod.fst
          ++ (firstKeys (es.map key)).filter (fun x => decide (¬ x ∈ acc.map Prod.fst)) := by
  intro es
  induction es with
  | nil => intro acc; simp [firstKeys]
  | cons e rest ih =>
      intro acc
      simp only [List.foldl_cons, List.map_cons]
      rw [ih (bump acc (key e) (entryMinutes e)), keys_bump]
      by_cases hm : key e ∈ acc.map Prod.fst
      · rw [if_pos hm]
        congr 1
        rw [firstKeys_cons, List.filter_cons]
        have hd : decide (¬ key e ∈ acc.map Prod.fst) = false := by simp [hm]
        rw [hd, filter_ne_of_mem _ _ _ hm]
        simp
      · rw [if_neg hm, filter_not_mem_append]
        rw [firstKeys_cons, List.filter_cons]
        have hd : decide (¬ key e ∈ acc.map Prod.fst) = true := by simp [hm]
        rw [hd]
        simp [List.append_assoc]

/-! The full characterisation of the accumulation: on integer-valued
entries, the object maps each first-seen key to the bucket total. -/

theorem foldl_bump_char {κ : Type} [DecidableEq κ] (key : Entry → κ) :
    ∀ (es : List Entry) (acc : List (κ × JSNum)),
      (∀ p ∈ acc, p.2 ≠ none) → ((acc.map Prod.fst).Nodup) →
      (∀ e ∈ es, entryMinutes e ≠ none) →
      es.foldl (fun a e => bump a (key e) (entryMinutes e)) acc
        = acc.map (fun p => (p.1,
              (bucketOf key p.1 es).foldl (fun a e => jsAdd a (entryMinutes e)) p.2))
          ++ ((firstKeys (es.map key)).filter (fun x => decide (¬ x ∈ acc.map Prod.fst))).map
              (fun x => (x, sumKey key x es)) := by
  intro es
  induction es with
  | nil =>
      intro acc hvals hnd hes
      simp [bucketOf, firstKeys]
  | cons e rest ih =>
      intro acc hvals hnd hes
      have hv : entryMinutes e ≠ none := hes e (by simp)
      have hrest : ∀ x ∈ rest, entryMinutes x ≠ none := fun x hx => hes x (by simp [hx])
      simp only [List.foldl_cons, List.map_cons]
      rw [ih (bump acc (key e) (entryMinutes e)) (bump_vals hvals hv)
            (keys_bump_nodup _ _ hnd) hrest]
      by_cases hm : key e ∈ acc.map Prod.fst
      · rw [bump_of_mem (entryMinutes e) hm hnd hvals]
        have hkeys : (acc.map (fun p =>
            if p.1 = key e then (p.1, jsAdd p.2 (entryMinutes e)) else p)).map Prod.fst
            = acc.map Prod.fst := by
          rw [List.map_map]
          apply List.map_congr_left
          intro p hp
          by_cases h1 : p.1 = key e <;> simp [h1]
        rw [hkeys]
        congr 1
        · rw [List.map_map]
          apply List.map_congr_left
          intro p hp
          by_cases h1 : p.1 = key e
          · rw [h1, bucketOf_cons_self]
            simp [h1]
          · have h2 : ¬ key e = p.1 := fun h => h1 h.symm
            rw [bucketOf_cons_ne key e rest h2]
            simp [h1]
        · rw [firstKeys_cons, List.filter_cons]
          have hd : decide (¬ key e ∈ acc.map Prod.fst) = false := by simp [hm]
          rw [hd, filter_ne_of_mem _ _ _ hm]
          apply List.map_congr_left
          intro x hx
          have hxk : ¬ key e = x := by
            have hdec := (List.mem_filter.mp hx).2
            simp only [decide_eq_true_eq] at hdec
            exact fun h => hdec (h ▸ hm)
          rw [sumKey_cons_ne key e rest hxk]
      · rw [bump_of_not_mem _ hm]
        have hkeys2 : List.map Prod.fst [(key e, jsAdd (some 0) (entryMinutes e))]
            = [key e] := rfl
        rw [List.map_append, List.map_append, hkeys2, filter_not_mem_append]
        rw [firstKeys_cons, List.filter_cons]
        have hd : decide (¬ key e ∈ acc.map Prod.fst) = true := by simp [hm]
        rw [hd]
        have hfirst : acc.map (fun p => (p.1,
              (bucketOf key p.1 (e :: rest)).foldl (fun a x => jsAdd a (entryMinutes x)) p.2))
            = acc.map (fun p => (p.1,
              (bucketOf key p.1 rest).foldl (fun a x => jsAdd a (entryMinutes x)) p.2)) := by
          apply List.map_congr_left
          intro p hp
          have hp1 : p.1 ∈ acc.map Prod.fst := List.mem_map_of_mem Prod.fst hp
          have h2 : ¬ key e = p.1 := fun h => hm (h ▸ hp1)
          rw [bucketOf_cons_ne key e rest h2]
        rw [hfirst]
        have hmid : ([(key e, jsAdd (some 0) (entryMinutes e))].map (fun p => (p.1,
              (bucketOf key p.1 rest).foldl (fun a x => jsAdd a (entryMinutes x)) p.2)))
            = [(key e, sumKey key (key e) (e :: rest))] := by
          simp only [List.map_cons, List.map_nil]
          congr 2
          rw [sumKey, bucketOf_cons_self]
          simp
        rw [hmid]
        have hlast : (((firstKeys (rest.map key)).filter (fun x => decide (x ≠ key e))).filter
              (fun x => decide (¬ x ∈ acc.map Prod.fst))).map (fun x => (x, sumKey key x rest))
            = (((firstKeys (rest.map key)).filter (fun x => decide (x ≠ key e))).filter
              (fun x => decide (¬ x ∈ acc.map Prod.fst))).map (fun x => (x, sumKey key x (e :: rest))) := by
          apply List.map_congr_left
          intro x hx
          have hxk : ¬ key e = x := by
            rcases List.mem_filter.mp hx with ⟨hx1, _⟩
            rcases List.mem_filter.mp hx1 with ⟨_, hdec⟩
            simp at hdec
            exact fun h => hdec h.symm
          rw [sumKey_cons_ne key e rest hxk]
        rw [hlast]
        simp [List.append_assoc]

/-! Specialised characterisations of the two aggregation objects. -/

theorem totalsByMonth_char (es : List Entry) (h : intEntries es) :
    totalsByMonth es = (firstKeys (es.map keyMonth)).map (fun k => (k, sumKey keyMonth k es)) := by
  have hes : ∀ e ∈ es, entryMinutes e ≠ none := fun e he =>
    entryMinutes_ne_none (h e he).1 (h e he).2
  have hc := foldl_bump_char keyMonth es [] (by simp) (by simp) hes
  simpa [totalsByMonth, keyMonth] using hc

theorem totalsByYear_char (es : List Entry) (h : intEntries es) :
    totalsByYear es = (firstKeys (es.map keyYear)).map (fun k => (k, sumKey keyYear k es)) := by
  have hes : ∀ e ∈ es, entryMinutes e ≠ none := fun e he =>
    entryMinutes_ne_none (h e he).1 (h e he).2
  have hc := foldl_bump_char keyYear es [] (by simp) (by simp) hes
  simpa [totalsByYear, keyYear] using hc

theorem sumKey_eq_bucketSum {κ : Type} [DecidableEq κ] (key : Entry → κ) (k : κ)
    (es : List Entry) (h : intEntries es) :
    sumKey key k es = some (bucketSum key k es) := by
  have hb : ∀ e ∈ bucketOf key k es, e.hours ≠ none ∧ e.minutes ≠ none :=
    fun e he => h e (List.mem_of_mem_filter he)
  have hmap : ∀ x ∈ (bucketOf key k es).map entryMinutes, x ≠ none := by
    intro x hx
    rcases List.mem_map.mp hx with ⟨e, he, rfl⟩
    exact entryMinutes_ne_none (hb e he).1 (hb e he).2
  have h1 := List.foldl_map entryMinutes jsAdd (bucketOf key k es) (some (0 : Int))
  rw [sumKey, ← h1, foldl_jsAdd_some _ hmap 0]
  have h3 : ((bucketOf key k es).map entryMinutes).map (fun x => x.getD 0)
      = (bucketOf key k es).map (fun e => e.hours.getD 0 * 60 + e.minutes.getD 0) := by
    rw [List.map_map]
    apply List.map_congr_left
    intro e he
    simp [Function.comp, entryMinutes_eq (hb e he).1 (hb e he).2]
  rw [h3, bucketSum, zero_add]

theorem sumKey_perm {κ : Type} [DecidableEq κ] (key : Entry → κ) (k : κ)
    {es es' : List Entry} (p : es.Perm es') :
    sumKey key k es = sumKey key k es' := by
  have e1 := List.foldl_map entryMinutes jsAdd (bucketOf key k es) (some (0 : Int))
  have e2 := List.foldl_map entryMinutes jsAdd (bucketOf key k es') (some (0 : Int))
  rw [sumKey, sumKey, ← e1, ← e2]
  exact foldl_jsAdd_perm ((p.filter _).map entryMinutes) _

/-! Lookup lemmas. -/

theorem lookup_map_self {κ : Type} [DecidableEq κ] [BEq κ] [LawfulBEq κ]
    (K : List κ) (g : κ → JSNum) (k : κ) :
    (K.map (fun x => (x, g x))).lookup k = if k ∈ K then some (g k) else none := by
  induction K with
  | nil => simp [List.lookup]
  | cons x t ih =>
      by_cases hx : k = x
      · subst hx
        simp [List.lookup]
      · have hbeq : (k == x) = false := beq_eq_false_iff_ne.mpr hx
        simp [List.lookup, hbeq, hx, ih]

/-! Lemmas on the ascending reordering of the year object. -/

theorem map_fst_insPairAsc (p : Nat × JSNum) (l : List (Nat × JSNum)) :
    (insPairAsc p l).map Prod.fst = insNatAsc p.1 (l.map Prod.fst) := by
  induction l with
  | nil => rfl
  | cons q t ih =>
      by_cases h : p.1 < q.1 <;> simp [insPairAsc, insNatAsc, h, ih]

theorem map_fst_sortPairsAsc (l : List (Nat × JSNum)) :
    (sortPairsAsc l).map Prod.fst = sortNatAsc (l.map Prod.fst) := by
  induction l with
  | nil => rfl
  | cons p t ih => simp [sortPairsAsc, sortNatAsc, map_fst_insPairAsc, ih]

theorem mem_insNatAsc (k x : Nat) (L : List Nat) : x ∈ insNatAsc k L ↔ x = k ∨ x ∈ L := by
  induction L with
  | nil => simp [insNatAsc]
  | cons y t ih =>
      by_cases h : k < y
      · simp [insNatAsc, h]
      · simp [insNatAsc, h, ih]
        tauto

theorem mem_sortNatAsc (x : Nat) (L : List Nat) : x ∈ sortNatAsc L ↔ x ∈ L := by
  induction L with
  | nil => simp [sortNatAsc]
  | cons k t ih => simp [sortNatAsc, mem_insNatAsc, ih]

theorem lookup_insPairAsc (p : Nat × JSNum) (l : List (Nat × JSNum))
    (h : ¬ p.1 ∈ l.map Prod.fst) (k : Nat) :
    (insPairAsc p l).lookup k = if k = p.1 then some p.2 else l.lookup k := by
  induction l with
  | nil =>
      by_cases hk : k = p.1
      · subst hk
        simp [insPairAsc, List.lookup]
      · have hbeq : (k == p.1) = false := beq_eq_false_iff_ne.mpr hk
        simp [insPairAsc, List.lookup, hbeq, hk]
  | cons q t ih =>
      simp only [List.map_cons, List.mem_cons] at h
      push_neg at h
      by_cases ho : p.1 < q.1
      · by_cases hk : k = p.1
        · subst hk
          simp [insPairAsc, ho, List.lookup]
        · have hbeq : (k == p.1) = false := beq_eq_false_iff_ne.mpr hk
          simp [insPairAsc, ho, List.lookup, hbeq, hk]
      · have ht := ih h.2
        by_cases hk : k = p.1
        · subst hk
          have hbq : (p.1 == q.1) = false := beq_eq_false_iff_ne.mpr h.1
          simp [insPairAsc, ho, List.lookup, hbq, ht]
        · simp [insPairAsc, ho, List.lookup, hk, ht]

theorem lookup_sortPairsAsc (l : List (Nat × JSNum)) (h : (l.map Prod.fst).Nodup) (k : Nat) :
    (sortPairsAsc l).lookup k = l.lookup k := by
  induction l with
  | nil => rfl
  | cons p t ih =>
      simp only [List.map_cons, List.nodup_cons] at h
      have hnotin : ¬ p.1 ∈ (sortPairsAsc t).map Prod.fst := by
        rw [map_fst_sortPairsAsc]
        intro hc
        exact h.1 ((mem_sortNatAsc _ _).mp hc)
      rw [show sortPairsAsc (p :: t) = insPairAsc p (sortPairsAsc t) from rfl]
      rw [lookup_insPairAsc p _ hnotin k]
      by_cases hk : k = p.1
      · subst hk
        simp [List.lookup]
      · have hbeq : (k == p.1) = false := beq_eq_false_iff_ne.mpr hk
        rw [ih h.2]
        simp [List.lookup, hbeq, hk]

/-! Helper lemmas on the store operations. -/

theorem keys_totalsByMonth (es : List Entry) :
    (totalsByMonth es).map Prod.fst = firstKeys (es.map keyMonth) := by
  have hk := keys_foldl_bump keyMonth es []
  simpa [totalsByMonth, keyMonth] using hk

theorem keys_totalsByYear (es : List Entry) :
    (totalsByYear es).map Prod.fst = firstKeys (es.map keyYear) := by
  have hk := keys_foldl_bump keyYear es []
  simpa [totalsByYear, keyYear] using hk

theorem mem_insertByKey (e : Entry) (l : List Entry) (r : Entry) :
    r ∈ insertByKey e l ↔ r = e ∨ r ∈ l := by
  induction l with
  | nil => simp [insertByKey]
  | cons q t ih =>
      by_cases h : e.id.getD 0 < q.id.getD 0
      · simp [insertByKey, h]
      · simp [insertByKey, h, ih]
        tauto

theorem updateEntry_some (s : Store) (e : Entry) (k : Int) (h : e.id = some k) :
    updateEntry s e
      = if s.recs.any (fun r => decide (r.id = some k)) then
          ⟨s.next, s.recs.map (fun r => if r.id = some k then e else r)⟩
        else ⟨max s.next (k + 1), insertByKey e s.recs⟩ := by
  obtain ⟨i, eh, em, ed2⟩ := e
  change i = some k at h
  subst h
  rfl

/-! Claim theorems. -/

/-- Claim C1, counterexample: editing the stored entry `recC1` (created at
`dMar2024a`) by submitting the form at `dJan2025` leaves the store holding,
under the same id, a record whose `createdAt` is the submission time —
the creation timestamp is not preserved, so the claim as stated fails. -/
theorem c1_createdAt_counterexample :
    (handleAddEntry stC1 feC1).store.recs = [rC1]
      ∧ rC1.createdAt = dJan2025
      ∧ stC1.store.recs = [recC1]
      ∧ recC1.createdAt = dMar2024a
      ∧ dJan2025 ≠ dMar2024a := by decide

/-- Claim C1, amended: on the edit path the replacement stores the incoming
form entry as-is under the edited entry's id, so the record kept under that
id carries the submission's fresh `createdAt`, not the original creation
timestamp (they agree only if the two wall-clock instants coincide). -/
theorem c1_amended_restamp (st : AppState) (ed : Entry) (k : Int) (entry : Entry)
    (hed : st.editingEntry = some ed) (hid : ed.id = some k) :
    ∀ r ∈ (handleAddEntry st entry).store.recs, r.id = some k → r.createdAt = entry.createdAt := by
  intro r hr hrid
  have hstore : (handleAddEntry st entry).store
      = updateEntry st.store { entry with id := some k } := by
    simp [handleAddEntry, hed, hid]
  rw [hstore, updateEntry_some _ _ k (by simp)] at hr
  by_cases hany : (st.store.recs.any (fun q => decide (q.id = some k))) = true
  · rw [if_pos hany] at hr
    rcases List.mem_map.mp hr with ⟨r0, hr0, rfl⟩
    by_cases h1 : r0.id = some k
    · simp [h1]
    · rw [if_neg h1] at hrid
      exact absurd hrid h1
  · rw [if_neg hany] at hr
    rcases (mem_insertByKey _ _ _).mp hr with rfl | hmem
    · simp
    · exfalso
      have hall : ∀ x ∈ st.store.recs, ¬ x.id = some k := by simpa using hany
      exact hall r hmem hrid

/-- Witness for the amended C1 at the concrete fixture: the record stored
under key 1 after the edit carries the submission date. -/
theorem c1_amended_restamp_witness : rC1.createdAt = feC1.createdAt := by
  have h := c1_amended_restamp stC1 recC1 1 feC1 rfl rfl rC1 (by decide) rfl
  exact h

/-- Claim C2: the controller's add-or-update matches the spec's description
of it — stamp with the edited id and put (clearing the marker) when editing,
add otherwise, and reload the collection from storage in both cases.  The
hypothesis restricts to submitted entries, which carry no id. -/
theorem c2_add_or_update (st : AppState) (entry : Entry) (h : entry.id = none) :
    handleAddEntry st entry = handleAddEntrySpec st entry := by
  cases hed : st.editingEntry <;> simp [handleAddEntry, handleAddEntrySpec, hed]

/-- Witness for C2 on a concrete state and form entry. -/
theorem c2_add_or_update_witness :
    handleAddEntry ⟨Store.empty, [], none, 2, 2024⟩ entry145
      = handleAddEntrySpec ⟨Store.empty, [], none, 2, 2024⟩ entry145 :=
  c2_add_or_update _ entry145 rfl

/-- Claim C3: on integer-valued entries, `totalsByMonth` maps each
first-seen month key `` `${year}-${month + 1}` `` to the raw sum of
`hours * 60 + minutes` over its bucket, with no normalisation — a March
2024 entry keys as `"2024-3"` and `{hours: 1, minutes: 75}` contributes
135 minutes as-is. -/
theorem c3_month_totals :
    (∀ es : List Entry, intEntries es →
        totalsByMonth es
          = (firstKeys (es.map keyMonth)).map (fun k => (k, some (bucketSum keyMonth k es))))
      ∧ monthKey dMar2024a = "2024-3"
      ∧ totalsByMonth [entry175] = [("2024-3", some 135)] := by
  refine ⟨?_, by decide, by decide⟩
  intro es h
  rw [totalsByMonth_char es h]
  apply List.map_congr_left
  intro k hk
  rw [sumKey_eq_bucketSum keyMonth k es h]

/-- Witness for C3 on a concrete entry list. -/
theorem c3_month_totals_witness :
    totalsByMonth [entry175, entry030]
      = (firstKeys ([entry175, entry030].map keyMonth)).map
          (fun k => (k, some (bucketSum keyMonth k [entry175, entry030]))) :=
  c3_month_totals.1 [entry175, entry030] (by decide)

/-- Claim C4: permuting the entry list leaves every month bucket's total and
every year bucket's total unchanged (totals looked up by key in the two
displayed views). -/
theorem c4_perm_totals (es es' : List Entry) (p : es.Perm es') (h : intEntries es) :
    (∀ k : String, (totalsByMonthView es).lookup k = (totalsByMonthView es').lookup k)
      ∧ (∀ y : Nat, (totalsByYearView es).lookup y = (totalsByYearView es').lookup y) := by
  have h' : intEntries es' := fun e he => h e (p.mem_iff.mpr he)
  constructor
  · intro k
    rw [show totalsByMonthView es = totalsByMonth es from rfl,
        show totalsByMonthView es' = totalsByMonth es' from rfl,
        totalsByMonth_char es h, totalsByMonth_char es' h',
        lookup_map_self, lookup_map_self]
    by_cases hm : k ∈ firstKeys (es.map keyMonth)
    · have hm' : k ∈ firstKeys (es'.map keyMonth) := by
        rw [mem_firstKeys] at hm ⊢
        exact (p.map keyMonth).mem_iff.mp hm
      rw [if_pos hm, if_pos hm', sumKey_perm keyMonth k p]
    · have hm' : ¬ k ∈ firstKeys (es'.map keyMonth) := by
        rw [mem_firstKeys] at hm ⊢
        exact fun hc => hm ((p.map keyMonth).mem_iff.mpr hc)
      rw [if_neg hm, if_neg hm']
  · intro y
    have hnd : ((totalsByYear es).map Prod.fst).Nodup := by
      rw [keys_totalsByYear]
      exact nodup_firstKeys _
    have hnd' : ((totalsByYear es').map Prod.fst).Nodup := by
      rw [keys_totalsByYear]
      exact nodup_firstKeys _
    rw [show totalsByYearView es = sortPairsAsc (totalsByYear es) from rfl,
        show totalsByYearView es' = sortPairsAsc (totalsByYear es') from rfl,
        lookup_sortPairsAsc _ hnd y, lookup_sortPairsAsc _ hnd' y,
        totalsByYear_char es h, totalsByYear_char es' h',
        lookup_map_self, lookup_map_self]
    by_cases hm : y ∈ firstKeys (es.map keyYear)
    · have hm' : y ∈ firstKeys (es'.map keyYear) := by
        rw [mem_firstKeys] at hm ⊢
        exact (p.map keyYear).mem_iff.mp hm
      rw [if_pos hm, if_pos hm', sumKey_perm keyYear y p]
    · have hm' : ¬ y ∈ firstKeys (es'.map keyYear) := by
        rw [mem_firstKeys] at hm ⊢
        exact fun hc => hm ((p.map keyYear).mem_iff.mpr hc)
      rw [if_neg hm, if_neg hm']

/-- Witness for C4 on two concrete permutations of the same entries. -/
theorem c4_perm_totals_witness :
    (totalsByMonthView [entry145, entryY25, entry030]).lookup "2024-3"
      = (totalsByMonthView [entry030, entry145, entryY25]).lookup "2024-3" :=
  (c4_perm_totals [entry145, entryY25, entry030] [entry030, entry145, entryY25]
    (by decide) (by decide)).1 "2024-3"

/-- Claim C5, counterexample: with a 2025 entry listed before a 2024 entry,
the year view lists its buckets ascending as `[2024, 2025]`, not in the
first-seen key order `[2025, 2024]` — the year keys are integer-like JS
property keys, which `Object.keys` enumerates in ascending numeric order. -/
theorem c5_order_counterexample :
    (totalsByYearView [entryY25, entry145]).map Prod.fst = [2024, 2025]
      ∧ firstKeys ([entryY25, entry145].map keyYear) = [2025, 2024]
      ∧ (totalsByYearView [entryY25, entry145]).map Prod.fst
          ≠ firstKeys ([entryY25, entry145].map keyYear) := by decide

/-- Claim C5, amended: the month view lists its buckets in first-seen
insertion order of the key (month keys are plain string properties), while
the year view lists its buckets in ascending numeric year order. -/
theorem c5_amended_order (es : List Entry) :
    (totalsByMonthView es).map Prod.fst = firstKeys (es.map keyMonth)
      ∧ (totalsByYearView es).map Prod.fst = sortNatAsc (firstKeys (es.map keyYear)) := by
  constructor
  · exact keys_totalsByMonth es
  · rw [show totalsByYearView es = sortPairsAsc (totalsByYear es) from rfl,
        map_fst_sortPairsAsc, keys_totalsByYear]

/-- Claim C6: deleting id `id` keeps exactly the records not stored under
that key, each with all its fields unchanged, and deleting an absent id is a
successful no-op that leaves the store untouched. -/
theorem c6_delete_exact (s : Store) (id : Int) :
    (∀ e : Entry, e ∈ (deleteEntry s id).recs ↔ (e ∈ s.recs ∧ e.id ≠ some id))
      ∧ ((∀ e ∈ s.recs, e.id ≠ some id) → deleteEntry s id = s) := by
  constructor
  · intro e
    simp [deleteEntry, List.mem_filter]
  · intro h
    obtain ⟨nx, recs⟩ := s
    simp only [deleteEntry, Store.mk.injEq, true_and]
    apply List.filter_eq_self.mpr
    intro a ha
    simp [h a ha]

/-- Witness for C6: deleting the absent key 99 from a one-record store is a
no-op. -/
theorem c6_delete_exact_witness :
    deleteEntry (addEntry Store.empty entry145) 99 = addEntry Store.empty entry145 :=
  (c6_delete_exact (addEntry Store.empty entry145) 99).2 (by decide)

/-- Claim C7: a bucket total renders as whole hours `Math.floor(t / 60)` and
remainder minutes `t % 60`, with no carry — so for a nonnegative total this
is exactly `(⌊t / 60⌋, t mod 60)`, and the March 2024 entries 1:45 and 0:30
total 135 minutes, displayed as `2:15`. -/
theorem c7_display_split :
    (∀ t : Int, 0 ≤ t → renderTotal (some t) = (some (Int.fdiv t 60), some (Int.emod t 60)))
      ∧ totalsByMonth [entry145, entry030] = [("2024-3", some 135)]
      ∧ getTotalTimeByMonth [entry145, entry030] = [("2024-3", (some 2, some 15))] := by
  refine ⟨?_, by decide, by decide⟩
  intro t ht
  simp only [renderTotal, Option.map]
  rw [Int.tmod_eq_emod ht (by omega)]
  rfl

/-- Witness for C7's display split at the 135-minute total. -/
theorem c7_display_split_witness :
    renderTotal (some 135) = (some (Int.fdiv 135 60), some (Int.emod 135 60)) :=
  c7_display_split.1 135 (by decide)

/-- Claim C8: a form submission parses both fields with base-10 `parseInt`,
builds exactly `{hours, minutes, createdAt: now}` with no id, hands that to
the callback, and clears both text fields; the sample parses illustrate
base-10 integer parsing. -/
theorem c8_form_submission :
    (∀ (fs : TimeForm.FormState) (now : JSDate),
        TimeForm.handleSubmit fs now
          = ({ id := none, hours := jsParseInt fs.hours, minutes := jsParseInt fs.minutes,
               createdAt := now }, { hours := "", minutes := "" }))
      ∧ jsParseInt "3" = some 3 ∧ jsParseInt "45" = some 45
      ∧ jsParseInt "-7" = some (-7) ∧ jsParseInt "" = none := by
  refine ⟨fun fs now => rfl, by decide, by decide, by decide, by decide⟩

/-- Claim C9: with zero entries both aggregate views render as the empty
sequence. -/
theorem c9_empty_aggregates :
    getTotalTimeByMonth [] = [] ∧ getTotalTimeByYear [] = []
      ∧ totalsByMonthView [] = [] ∧ totalsByYearView [] = [] :=
  ⟨rfl, rfl, rfl, rfl⟩

/-- Claim C10: while an entry with key `k` is being edited, deleting key `k`
leaves the edit marker in place and removes the record; the next form
submission then puts under `k`, which re-inserts a record with that id into
the store (an upsert, not an error), and clears the marker. -/
theorem c10_delete_during_edit (st : AppState) (ed : Entry) (k : Int) (fe : Entry)
    (hed : st.editingEntry = some ed) (hid : ed.id = some k) (hfe : fe.id = none) :
    ((handleDeleteEntry st k).editingEntry = some ed)
      ∧ (∀ r ∈ (handleDeleteEntry st k).store.recs, r.id ≠ some k)
      ∧ ({ fe with id := some k } ∈ (handleAddEntry (handleDeleteEntry st k) fe).store.recs)
      ∧ ((handleAddEntry (handleDeleteEntry st k) fe).editingEntry = none) := by
  have hed1 : (handleDeleteEntry st k).editingEntry = some ed := by
    simp [handleDeleteEntry, hed]
  have hrecs : ∀ r ∈ (handleDeleteEntry st k).store.recs, r.id ≠ some k := by
    intro r hr
    simp only [handleDeleteEntry, deleteEntry] at hr
    have := (List.mem_filter.mp hr).2
    simpa using this
  have hstore : (handleAddEntry (handleDeleteEntry st k) fe).store
      = updateEntry (handleDeleteEntry st k).store { fe with id := some k } := by
    simp [handleAddEntry, hed1, hid]
  refine ⟨hed1, hrecs, ?_, by simp [handleAddEntry, hed1]⟩
  rw [hstore, updateEntry_some _ _ k (by simp)]
  have hany : ((handleDeleteEntry st k).store.recs.any (fun r => decide (r.id = some k)))
      = false := by
    rw [List.any_eq_false]
    intro r hr
    simpa using hrecs r hr
  rw [if_neg (by simp [hany])]
  exact (mem_insertByKey _ _ _).mpr (Or.inl rfl)

/-- Witness for C10 at the concrete fixture: after deleting the edited key 1
and submitting `entry030`, a record with id 1 is back in the store. -/
theorem c10_delete_during_edit_witness :
    ({ entry030 with id := some 1 } ∈ (handleAddEntry (handleDeleteEntry stC1 1) entry030).store.recs) :=
  (c10_delete_during_edit stC1 recC1 1 entry030 rfl rfl rfl).2.2.1
